import Mathlib

/-!
Shallow embedding of the lumux screen-to-Hue sync pipeline, translated from
`src/utils/rgb_xy_converter.py`, `src/lumux/colors.py`, `src/lumux/zones.py`,
`src/lumux/black_bar_detector.py`, `src/lumux/entertainment.py` and
`src/lumux/sync.py`. Python floats are modelled as exact rationals where the
code only performs field arithmetic, and as reals where the code takes
non-integer powers; Python `int()` truncation and Python 3 `round()`
(half-to-even) are modelled explicitly.
-/

namespace Lumux

/-- Python `int(q)` on a rational value: truncation toward zero. -/
def pyInt (q : ℚ) : ℤ := if 0 ≤ q then ⌊q⌋ else ⌈q⌉

/-- Zone identifiers. The source keys its zone dictionaries by the strings
`"top_{i}"`, `"bottom_{i}"`, `"left_{i}"`, `"right_{i}"`; since that
formatting is injective, the tagged form below is a faithful model of the
string keys. -/
inductive ZoneId where
  | top (i : ℕ)
  | bottom (i : ℕ)
  | left (i : ℕ)
  | right (i : ℕ)
deriving DecidableEq, Repr

/-- A point in CIE xy space. -/
abbrev Pt := ℚ × ℚ

/-- Gamut value from `src/utils/rgb_xy_converter.py`: the dict with the
red, green and blue xy vertices. -/
structure Gamut where
  red : Pt
  green : Pt
  blue : Pt
deriving DecidableEq

/-- GAMUT_A (rgb_xy_converter.py lines 75-79). -/
def GAMUT_A : Gamut := ⟨(0.704, 0.296), (0.2151, 0.7106), (0.138, 0.08)⟩

/-- GAMUT_B (rgb_xy_converter.py lines 81-85). -/
def GAMUT_B : Gamut := ⟨(0.675, 0.322), (0.409, 0.518), (0.167, 0.04)⟩

/-- GAMUT_C (rgb_xy_converter.py lines 87-91). -/
def GAMUT_C : Gamut := ⟨(0.6915, 0.3038), (0.17, 0.7), (0.1532, 0.0475)⟩

/-- The nested helper `sign` of point_in_triangle (rgb_xy_converter.py
line 132-133). -/
def sign (p1 p2 p3 : Pt) : ℚ :=
  (p1.1 - p3.1) * (p2.2 - p3.2) - (p2.1 - p3.1) * (p1.2 - p3.2)

/-- point_in_triangle (rgb_xy_converter.py lines 127-142): barycentric sign
test, boundary points count as inside. -/
def point_in_triangle (px py : ℚ) (p1 p2 p3 : Pt) : Bool :=
  let d1 := sign (px, py) p1 p2
  let d2 := sign (px, py) p2 p3
  let d3 := sign (px, py) p3 p1
  let has_neg : Bool := decide (d1 < 0) || decide (d2 < 0) || decide (d3 < 0)
  let has_pos : Bool := decide (0 < d1) || decide (0 < d2) || decide (0 < d3)
  !(has_neg && has_pos)

/-- closest_point_on_line (rgb_xy_converter.py lines 145-158): clamped
projection of `p` onto the segment from `a` to `b`. -/
def closest_point_on_line (a b p : Pt) : Pt :=
  let ap : Pt := (p.1 - a.1, p.2 - a.2)
  let ab : Pt := (b.1 - a.1, b.2 - a.2)
  let ab2 := ab.1 * ab.1 + ab.2 * ab.2
  let ap_ab := ap.1 * ab.1 + ap.2 * ab.2
  let t0 := if ab2 ≠ 0 then ap_ab / ab2 else 0
  let t := max 0 (min 1 t0)
  (a.1 + ab.1 * t, a.2 + ab.2 * t)

/-- Squared Euclidean distance. The source `distance` (rgb_xy_converter.py
lines 161-163) returns `math.sqrt` of this quantity; the square root is
strictly monotone on nonnegative reals, so the `<=` comparisons made in
constrain_to_gamut coincide with comparisons of these squared distances,
which keeps the embedding inside the rationals. -/
def distanceSq (p1 p2 : Pt) : ℚ :=
  (p1.1 - p2.1) ^ 2 + (p1.2 - p2.2) ^ 2

/-- constrain_to_gamut (rgb_xy_converter.py lines 94-124). -/
def constrain_to_gamut (x y : ℚ) (gamut : Gamut) : Pt :=
  if point_in_triangle x y gamut.red gamut.green gamut.blue then (x, y)
  else
    let p1 := closest_point_on_line gamut.red gamut.green (x, y)
    let p2 := closest_point_on_line gamut.green gamut.blue (x, y)
    let p3 := closest_point_on_line gamut.blue gamut.red (x, y)
    let d1 := distanceSq (x, y) p1
    let d2 := distanceSq (x, y) p2
    let d3 := distanceSq (x, y) p3
    if d1 ≤ d2 ∧ d1 ≤ d3 then p1
    else if d2 ≤ d1 ∧ d2 ≤ d3 then p2
    else p3

/-- Python 3 `round(x)`: round half to even. -/
noncomputable def pyRound (x : ℝ) : ℤ :=
  if Int.fract x < 1 / 2 then ⌊x⌋
  else if 1 / 2 < Int.fract x then ⌈x⌉
  else if 2 ∣ ⌊x⌋ then ⌊x⌋ else ⌊x⌋ + 1

/-- Python `int(x)` on a real value: truncation toward zero. -/
noncomputable def pyIntR (x : ℝ) : ℤ := if 0 ≤ x then ⌊x⌋ else ⌈x⌉

/-- ColorAnalyzer._apply_gamma (colors.py lines 44-52): per channel,
clamp `c/255` to `[0,1]`, raise to the (positive) gamma, rescale to 0-255
and round with `int(round(...))`. -/
noncomputable def apply_gamma (gamma : ℝ) (rgb : ℤ × ℤ × ℤ) : ℤ × ℤ × ℤ :=
  let g := if 0 < gamma then gamma else 1
  let corr := fun (c : ℤ) =>
    let normalized := max 0 (min 1 ((c : ℝ) / 255))
    let adjusted := normalized ^ g
    pyRound (adjusted * 255)
  (corr rgb.1, corr rgb.2.1, corr rgb.2.2)

/-- Rec.709 luminance of an RGB triple, as written in
ColorAnalyzer._calculate_brightness (colors.py line 40). -/
noncomputable def luminance709 (rgb : ℤ × ℤ × ℤ) : ℝ :=
  0.2126 * (rgb.1 : ℝ) + 0.7152 * (rgb.2.1 : ℝ) + 0.0722 * (rgb.2.2 : ℝ)

/-- ColorAnalyzer._calculate_brightness (colors.py lines 34-42). -/
noncomputable def calculate_brightness (brightness_scale : ℝ) (rgb : ℤ × ℤ × ℤ) : ℤ :=
  let brightness := pyIntR (luminance709 rgb / 255 * 254 * brightness_scale)
  max 1 (min 254 brightness)

/-- Brightness produced by the analyzer pipeline:
`_calculate_brightness` applied to the `_apply_gamma`-corrected RGB
(colors.py lines 26-30). -/
noncomputable def analyzer_brightness (gamma brightness_scale : ℝ) (rgb : ℤ × ℤ × ℤ) : ℤ :=
  calculate_brightness brightness_scale (apply_gamma gamma rgb)

/-- Modelled from the spec sentence for claim C7: brightness as
`clamp(1,254, round(254 * luminance/255 * brightness_scale))` with the
luminance taken on the gamma-corrected RGB; `round` is ordinary rounding. -/
noncomputable def spec_brightness (gamma brightness_scale : ℝ) (rgb : ℤ × ℤ × ℤ) : ℤ :=
  let corrected := apply_gamma gamma rgb
  max 1 (min 254 (round (254 * (luminance709 corrected / 255) * brightness_scale)))

/-- The nested gamma_correct of rgb_to_xy (rgb_xy_converter.py lines 24-25). -/
noncomputable def gamma_correct (c : ℝ) : ℝ :=
  if c ≤ 0.04045 then c / 12.92 else ((c + 0.055) / 1.055) ^ (2.4 : ℝ)

/-- Body of rgb_to_xy (rgb_xy_converter.py lines 7-44): normalize, apply the
sRGB gamma, convert to XYZ and project to xy, with the equal-energy default
when the total is zero. -/
noncomputable def rgb_to_xy_body (r g b : ℝ) : ℝ × ℝ :=
  let r_gamma := gamma_correct (r / 255)
  let g_gamma := gamma_correct (g / 255)
  let b_gamma := gamma_correct (b / 255)
  let X := r_gamma * 0.664511 + g_gamma * 0.154324 + b_gamma * 0.162028
  let Y := r_gamma * 0.283881 + g_gamma * 0.668433 + b_gamma * 0.047685
  let Z := r_gamma * 0.000088 + g_gamma * 0.072310 + b_gamma * 0.986039
  let total := X + Y + Z
  if total = 0 then (0.3227, 0.3290) else (X / total, Y / total)

/-- Python runtime errors surfaced by the embedded code. -/
inductive PyErr where
  | typeError
deriving DecidableEq

/-- Parameter list of rgb_to_xy (rgb_xy_converter.py line 7): exactly the
three positional parameters `r`, `g`, `b`. -/
def rgb_to_xy_params : List String := ["r", "g", "b"]

/-- Python call of rgb_to_xy with three positional arguments plus the given
keyword-argument names. The three positional arguments already bind every
name in `rgb_to_xy_params`, so a keyword argument can only be accepted if it
names one of the remaining (dropped) parameters - there are none, hence any
keyword name raises TypeError before the body runs. -/
noncomputable def rgb_to_xy_call (r g b : ℝ) (kwargs : List String) :
    Except PyErr (ℝ × ℝ) :=
  if kwargs.all (fun k => decide (k ∈ rgb_to_xy_params.drop 3)) then
    Except.ok (rgb_to_xy_body r g b)
  else Except.error PyErr.typeError

/-- Opaque payload of the optional light metadata; its content is never
inspected because the call in analyze_zone raises first. -/
abbrev LightInfo := List (String × String)

/-- ColorAnalyzer.analyze_zone (colors.py lines 15-32). Line 28 of the
source is `xy = rgb_to_xy(r, g, b, light_info=light_info)`, a call with the
extra keyword `light_info`. -/
noncomputable def analyze_zone (gamma brightness_scale : ℝ) (rgb : ℤ × ℤ × ℤ)
    (light_info : Option LightInfo) : Except PyErr ((ℝ × ℝ) × ℤ) :=
  let _ := light_info
  let corrected := apply_gamma gamma rgb
  match rgb_to_xy_call (corrected.1 : ℝ) (corrected.2.1 : ℝ) (corrected.2.2 : ℝ)
      ["light_info"] with
  | Except.error e => Except.error e
  | Except.ok xy => Except.ok (xy, calculate_brightness brightness_scale corrected)

/-- ColorAnalyzer.analyze_zones_batch (colors.py lines 88-108): analyze each
zone in order; an exception from analyze_zone propagates out of the loop. -/
noncomputable def analyze_zones_batch (gamma brightness_scale : ℝ)
    (zone_colors : List (ZoneId × (ℤ × ℤ × ℤ)))
    (light_info_map : ZoneId → Option LightInfo) :
    Except PyErr (List (ZoneId × ((ℝ × ℝ) × ℤ))) :=
  match zone_colors with
  | [] => Except.ok []
  | (z, rgb) :: rest =>
    match analyze_zone gamma brightness_scale rgb (light_info_map z) with
    | Except.error e => Except.error e
    | Except.ok c =>
      match analyze_zones_batch gamma brightness_scale rest light_info_map with
      | Except.error e => Except.error e
      | Except.ok cs => Except.ok ((z, c) :: cs)

/-- An analyzed zone color: ((x, y), brightness). -/
abbrev HueColor := (ℚ × ℚ) × ℤ

/-- Lookup in an insertion-ordered association list; models membership and
indexing of a Python dict (keys are unique by construction). -/
def alistFind? {κ α : Type} [DecidableEq κ] (l : List (κ × α)) (k : κ) : Option α :=
  match l with
  | [] => none
  | (k0, a) :: rest => if k0 = k then some a else alistFind? rest k

/-- One smoothing step for a zone that already has a previous color
(colors.py lines 72-81): exponential moving average on x and y, the same
average truncated with `int(...)` on the brightness. -/
def smooth_pair (factor : ℚ) (prev curr : HueColor) : HueColor :=
  let smooth_xy := (prev.1.1 + factor * (curr.1.1 - prev.1.1),
                    prev.1.2 + factor * (curr.1.2 - prev.1.2))
  let smooth_bri := pyInt ((prev.2 : ℚ) + factor * ((curr.2 : ℚ) - (prev.2 : ℚ)))
  (smooth_xy, smooth_bri)

/-- ColorAnalyzer.apply_smoothing (colors.py lines 54-86). The argument
`previous` is the previous_colors state; the returned list is both the
result and the new previous_colors state (line 85 copies it back). Zones
absent from the previous state pass through unchanged (line 83). -/
def apply_smoothing (factor : ℚ) (previous current : List (ZoneId × HueColor)) :
    List (ZoneId × HueColor) :=
  current.map (fun zc =>
    match alistFind? previous zc.1 with
    | some prev => (zc.1, smooth_pair factor prev zc.2)
    | none => zc)

/-- The x (or y) smoothing recurrence iterated n times toward the constant
target t from the start value x0. -/
def xyIter (factor t x0 : ℚ) : ℕ → ℚ
  | 0 => x0
  | n + 1 => xyIter factor t x0 n + factor * (t - xyIter factor t x0 n)

/-- Convergence of a rational sequence to a rational limit, in the classic
epsilon-N form. -/
def TendsToQ (s : ℕ → ℚ) (t : ℚ) : Prop :=
  ∀ ε : ℚ, 0 < ε → ∃ N, ∀ n, N ≤ n → |s n - t| < ε

/-- Constant smoothing target for the brightness counterexample: zone top_0
at xy (0,0) with brightness 1. -/
def c5_target : List (ZoneId × HueColor) := [(ZoneId.top 0, ((0, 0), 1))]

/-- State of previous_colors after n repeated apply_smoothing calls with
factor 1/2 and constant target `c5_target`, starting from a state where
zone top_0 was first seen at brightness 0. -/
def c5_state : ℕ → List (ZoneId × HueColor)
  | 0 => [(ZoneId.top 0, ((0, 0), 0))]
  | n + 1 => apply_smoothing (1 / 2) (c5_state n) c5_target

/-- Brightness of zone top_0 after n repeated smoothing steps toward
brightness 1. -/
def c5_bri (n : ℕ) : ℤ :=
  ((alistFind? (c5_state n) (ZoneId.top 0)).map Prod.snd).getD 0

/-- A captured frame: height, width, and the pixel grid (row index first,
as in the numpy array view of the PIL image). -/
structure Img where
  height : ℕ
  width : ℕ
  px : ℕ → ℕ → ℚ × ℚ × ℚ

/-- Mean of one channel over the pixel rectangle with rows `[y1, y2)` and
columns `[x1, x2)`. -/
def rectMean (f : ℕ → ℕ → ℚ) (y1 y2 x1 x2 : ℕ) : ℚ :=
  let rows := (List.range (y2 - y1)).map (fun i => y1 + i)
  let cols := (List.range (x2 - x1)).map (fun j => x1 + j)
  (rows.map (fun i => (cols.map (fun j => f i j)).sum)).sum
    / (((y2 - y1) * (x2 - x1) : ℕ) : ℚ)

/-- np.mean over a pixel rectangle followed by astype(int), per channel
(zones.py lines 110-111 etc.). -/
def rectMeanRGB (img : Img) (y1 y2 x1 x2 : ℕ) : ℤ × ℤ × ℤ :=
  (pyInt (rectMean (fun i j => (img.px i j).1) y1 y2 x1 x2),
   pyInt (rectMean (fun i j => (img.px i j).2.1) y1 y2 x1 x2),
   pyInt (rectMean (fun i j => (img.px i j).2.2) y1 y2 x1 x2))

/-- ZoneProcessor._process_ambilight (zones.py lines 80-139). Edge-zone
counts follow lines 96-99: `cols` zones for top and bottom and
`max(1, rows // 2)` for left and right; the slice bounds follow lines
101-134, with numpy slices clipped to the image border. Natural
subtraction models the `max(0, ...)` at lines 116 and 131. -/
def process_ambilight (rows cols : ℕ) (img : Img) : List (ZoneId × (ℤ × ℤ × ℤ)) :=
  let height := img.height
  let width := img.width
  let edge_width := max (min (width / cols) (height / 8)) 5
  let top_count := cols
  let bottom_count := cols
  let left_count := max 1 (rows / 2)
  let right_count := max 1 (rows / 2)
  let top_zone_width := width / top_count
  let bottom_zone_width := width / bottom_count
  let left_zone_height := height / left_count
  let right_zone_height := height / right_count
  (List.range top_count).map (fun i =>
      (ZoneId.top i, rectMeanRGB img 0 (min edge_width height)
        (i * top_zone_width) (min ((i + 1) * top_zone_width) width)))
    ++ (List.range bottom_count).map (fun i =>
      (ZoneId.bottom i, rectMeanRGB img (height - edge_width) height
        (i * bottom_zone_width) (min ((i + 1) * bottom_zone_width) width)))
    ++ (List.range left_count).map (fun i =>
      (ZoneId.left i, rectMeanRGB img (i * left_zone_height)
        (min ((i + 1) * left_zone_height) height) 0 (min edge_width width)))
    ++ (List.range right_count).map (fun i =>
      (ZoneId.right i, rectMeanRGB img (i * right_zone_height)
        (min ((i + 1) * right_zone_height) height) (width - edge_width) width))

/-- ZoneProcessor.get_zone_ids for the ambilight layout
(zones.py lines 152-169). -/
def get_zone_ids (rows cols : ℕ) : List ZoneId :=
  (List.range cols).map ZoneId.top
    ++ (List.range cols).map ZoneId.bottom
    ++ (List.range (max 1 (rows / 2))).map ZoneId.left
    ++ (List.range (max 1 (rows / 2))).map ZoneId.right

/-- ZoneProcessor.get_zone_count for the ambilight layout
(zones.py lines 141-150). -/
def get_zone_count (rows cols : ℕ) : ℕ :=
  cols + cols + max 1 (rows / 2) + max 1 (rows / 2)

/-- _find_black_region (black_bar_detector.py lines 219-241): length of the
contiguous run of entries at or below the threshold, scanned from the front
or from the back. -/
def find_black_region (threshold : ℚ) (lum : List ℚ) (from_start : Bool) : ℕ :=
  let l := if from_start then lum else lum.reverse
  (l.takeWhile (fun v => decide (v ≤ threshold))).length

/-- Pixel luminance 0.299 R + 0.587 G + 0.114 B
(black_bar_detector.py lines 172-174). -/
def lum601 (c : ℚ × ℚ × ℚ) : ℚ := 0.299 * c.1 + 0.587 * c.2.1 + 0.114 * c.2.2

/-- Mean luminance of row i (np.mean along axis 1, line 177). -/
def row_luminance (img : Img) (i : ℕ) : ℚ :=
  ((List.range img.width).map (fun j => lum601 (img.px i j))).sum / (img.width : ℚ)

/-- Mean luminance of column j (np.mean along axis 0, line 178). -/
def col_luminance (img : Img) (j : ℕ) : ℚ :=
  ((List.range img.height).map (fun i => lum601 (img.px i j))).sum / (img.height : ℚ)

/-- The per-axis crop post-processing of _detect_bars
(black_bar_detector.py lines 186-206): reset the axis to no crop when the
remaining size falls under `int(size * 0.5)`, then clamp each side to
`size // 2 - 1`. For a nonnegative integer size, `int(size * 0.5)` is
exactly the rounded-down half `size / 2`. -/
def adjust_axis (size a b : ℕ) : ℤ × ℤ :=
  let min_size : ℤ := ((size / 2 : ℕ) : ℤ)
  let ab : ℤ × ℤ := if (size : ℤ) - a - b < min_size then (0, 0) else ((a : ℤ), (b : ℤ))
  let max_crop : ℤ := ((size / 2 : ℕ) : ℤ) - 1
  (min ab.1 max_crop, min ab.2 max_crop)

/-- _detect_bars (black_bar_detector.py lines 161-214): luminance scan on
rows and columns, the per-axis post-processing, and the CropRegion fields
(left, top, right, bottom) assembled at lines 209-214. -/
def detect_bars (threshold : ℚ) (img : Img) : ℤ × ℤ × ℤ × ℤ :=
  let row_lum := (List.range img.height).map (row_luminance img)
  let col_lum := (List.range img.width).map (col_luminance img)
  let top := find_black_region threshold row_lum true
  let bottom := find_black_region threshold row_lum false
  let left := find_black_region threshold col_lum true
  let right := find_black_region threshold col_lum false
  let lr := adjust_axis img.width left right
  let tb := adjust_axis img.height top bottom
  (lr.1, tb.1, (img.width : ℤ) - lr.2, (img.height : ℤ) - tb.2)

/-- The ASCII bytes of the protocol magic "HueStream"
(entertainment.py line 24). -/
def HEADER_BYTES : List ℕ := [72, 117, 101, 83, 116, 114, 101, 97, 109]

/-- _color_to_bytes (entertainment.py lines 468-471): clamp a 0-1 float,
scale by 65535, truncate with `int(...)`, split big-endian. On nonnegative
integers `(scaled >> 8) & 0xFF` is `scaled / 256 % 256` and
`scaled & 0xFF` is `scaled % 256`. -/
def color_to_bytes (value : ℚ) : List ℕ :=
  let scaled := (pyInt (max 0 (min 1 value) * 65535)).toNat
  [scaled / 256 % 256, scaled % 256]

/-- _brightness_to_bytes (entertainment.py lines 473-476): clamp 0-254,
scale by 257 (an exact integer product), split big-endian. -/
def brightness_to_bytes (brightness : ℤ) : List ℕ :=
  let scaled := (max 0 (min 254 brightness) * 257).toNat
  [scaled / 256 % 256, scaled % 256]

/-- _build_message_header (entertainment.py lines 406-417): magic, version
0x02 0x00, current sequence byte, two reserved zero bytes, the colorspace
byte, one reserved zero byte, then the ASCII configuration id. -/
def build_message_header (colorspace seq : ℕ) (config_id : List ℕ) : List ℕ :=
  HEADER_BYTES ++ [0x02, 0x00] ++ [seq] ++ [0x00, 0x00] ++ [colorspace] ++ [0x00]
    ++ config_id

/-- _extract_xy_brightness (entertainment.py lines 458-466): channels with
no pending color get xy (0,0) and brightness 0. -/
def extract_xy_brightness (colors : ℕ → Option HueColor) (channel_id : ℕ) : HueColor :=
  (colors channel_id).getD ((0, 0), 0)

/-- _build_xy_channel_data (entertainment.py lines 433-445): one 7-byte
record per known channel, iterated in `sorted(...)` ascending order. -/
def build_xy_channel_data (channels : List ℕ) (colors : ℕ → Option HueColor) : List ℕ :=
  (List.insertionSort (· ≤ ·) channels).flatMap (fun channel_id =>
    let c := extract_xy_brightness colors channel_id
    channel_id :: (color_to_bytes c.1.1 ++ color_to_bytes c.1.2
      ++ brightness_to_bytes c.2))

/-- _build_xy_message (entertainment.py lines 397-404): header with the XY
colorspace byte 0x01 followed by the channel data. -/
def build_xy_message (seq : ℕ) (config_id : List ℕ) (channels : List ℕ)
    (colors : ℕ → Option HueColor) : List ℕ :=
  build_message_header 0x01 seq config_id ++ build_xy_channel_data channels colors

/-- _extract_rgb (entertainment.py lines 447-456). -/
def extract_rgb (colors : ℕ → Option (ℚ × ℚ × ℚ × ℚ)) (channel_id : ℕ) : ℚ × ℚ × ℚ :=
  match colors channel_id with
  | some (r, g, b, _) => (r, g, b)
  | none => (0, 0, 0)

/-- _build_rgb_channel_data (entertainment.py lines 419-431). -/
def build_rgb_channel_data (channels : List ℕ)
    (colors : ℕ → Option (ℚ × ℚ × ℚ × ℚ)) : List ℕ :=
  (List.insertionSort (· ≤ ·) channels).flatMap (fun channel_id =>
    let c := extract_rgb colors channel_id
    channel_id :: (color_to_bytes c.1 ++ color_to_bytes c.2.1 ++ color_to_bytes c.2.2))

/-- _build_rgb_message (entertainment.py lines 388-395): header with the
RGB colorspace byte 0x00 followed by the channel data. -/
def build_rgb_message (seq : ℕ) (config_id : List ℕ) (channels : List ℕ)
    (colors : ℕ → Option (ℚ × ℚ × ℚ × ℚ)) : List ℕ :=
  build_message_header 0x00 seq config_id ++ build_rgb_channel_data channels colors

/-- Streaming state: the sequence counter (`self._sequence`, line 90) and
the connected flag. -/
structure StreamState where
  sequence : ℕ
  connected : Bool
deriving DecidableEq, Repr

/-- State after __init__ (line 90, `self._sequence = 0`) and a successful
connect (line 131). -/
def initial_stream_state : StreamState := ⟨0, true⟩

/-- send_colors_xy (entertainment.py lines 338-358): when connected, build
the message carrying the current sequence number, attempt the DTLS send
(outcome reported by `send_ok`), and on success advance the sequence modulo
256; an exception leaves the sequence untouched and marks the stream
disconnected. Returns the new state and the frame that went out. -/
def send_colors_xy (config_id : List ℕ) (channels : List ℕ) (st : StreamState)
    (colors : ℕ → Option HueColor) (send_ok : Bool) : StreamState × Option (List ℕ) :=
  if !st.connected then (st, none)
  else
    let message := build_xy_message st.sequence config_id channels colors
    if send_ok then (⟨(st.sequence + 1) % 256, st.connected⟩, some message)
    else (⟨st.sequence, false⟩, none)

/-- send_colors (RGB mode, entertainment.py lines 319-336): the same
sequence-number behaviour with the RGB message builder. -/
def send_colors (config_id : List ℕ) (channels : List ℕ) (st : StreamState)
    (colors : ℕ → Option (ℚ × ℚ × ℚ × ℚ)) (send_ok : Bool) :
    StreamState × Option (List ℕ) :=
  if !st.connected then (st, none)
  else
    let message := build_rgb_message st.sequence config_id channels colors
    if send_ok then (⟨(st.sequence + 1) % 256, st.connected⟩, some message)
    else (⟨st.sequence, false⟩, none)

/-- State after n successive successful XY sends from the initial state,
with the per-tick channel colors given by `colors`. -/
def state_after (config_id : List ℕ) (channels : List ℕ)
    (colors : ℕ → ℕ → Option HueColor) : ℕ → StreamState
  | 0 => initial_stream_state
  | n + 1 =>
    (send_colors_xy config_id channels (state_after config_id channels colors n)
      (colors n) true).1

/-- Frame emitted by the (n+1)-st successful XY send. -/
def frame_at (config_id : List ℕ) (channels : List ℕ)
    (colors : ℕ → ℕ → Option HueColor) (n : ℕ) : Option (List ℕ) :=
  (send_colors_xy config_id channels (state_after config_id channels colors n)
    (colors n) true).2

/-- Modelled from the spec wire-format section for claim C1: a 52-byte
header (9 ASCII bytes "HueStream", version bytes 0x02 0x00, the sequence
byte, two reserved zero bytes, color-space byte 0x01, one reserved zero
byte, the 36 ASCII bytes of the zone UUID) followed by one 7-byte record
per known channel in ascending channel-id order; a record is the channel
id, then x and y clamped to [0,1], scaled by 65535 and emitted as
big-endian 16-bit, then brightness clamped to [0,254], scaled by 257 and
emitted as big-endian 16-bit; a channel with no pending color carries an
all-zero color payload after its channel-id byte. -/
def spec_xy_frame (seq : ℕ) (config_id : List ℕ) (channels : List ℕ)
    (colors : ℕ → Option HueColor) : List ℕ :=
  let be16 := fun (n : ℕ) => [n / 256 % 256, n % 256]
  let record := fun (ch : ℕ) =>
    match colors ch with
    | some ((x, y), bri) =>
      ch :: (be16 (⌊max 0 (min 1 x) * 65535⌋).toNat
        ++ be16 (⌊max 0 (min 1 y) * 65535⌋).toNat
        ++ be16 ((max 0 (min 254 bri)).toNat * 257))
    | none => [ch, 0, 0, 0, 0, 0, 0]
  ([72, 117, 101, 83, 116, 114, 101, 97, 109] ++ [0x02, 0x00] ++ [seq]
      ++ [0x00, 0x00] ++ [0x01] ++ [0x00] ++ config_id)
    ++ (List.insertionSort (· ≤ ·) channels).flatMap record

/-- Pairwise combination of two colors that share a channel
(sync.py lines 319-323): average of x and y, floor-division average of the
integer brightness. -/
def combine_channel_color (existing incoming : HueColor) : HueColor :=
  (((existing.1.1 + incoming.1.1) / 2, (existing.1.2 + incoming.1.2) / 2),
    Int.fdiv (existing.2 + incoming.2) 2)

/-- One step of the channel_colors dict update for a zone mapped to
`channel_id` (sync.py lines 317-325). -/
def update_channel_colors (acc : List (ℕ × HueColor)) (channel_id : ℕ)
    (c : HueColor) : List (ℕ × HueColor) :=
  match alistFind? acc channel_id with
  | some existing =>
    acc.map (fun kv =>
      if kv.1 = channel_id then (kv.1, combine_channel_color existing c) else kv)
  | none => acc ++ [(channel_id, c)]

/-- The zone-to-channel conversion loop of _update_lights
(sync.py lines 307-325), folded in zone iteration order. -/
def channel_colors_of (zone_channel : ZoneId → Option ℕ)
    (hue_colors : List (ZoneId × HueColor)) : List (ℕ × HueColor) :=
  hue_colors.foldl (fun acc zc =>
    match zone_channel zc.1 with
    | none => acc
    | some ch => update_channel_colors acc ch zc.2) []

/-- The zone id list built in _build_zone_channel_mapping
(sync.py lines 99-108): cols zones for top and bottom, max(1, rows // 2)
for left and right, in that edge order. -/
def sync_zones (rows cols : ℕ) : List ZoneId :=
  (List.range cols).map ZoneId.top
    ++ (List.range cols).map ZoneId.bottom
    ++ (List.range (max 1 (rows / 2))).map ZoneId.left
    ++ (List.range (max 1 (rows / 2))).map ZoneId.right

/-- Target position of a zone (sync.py lines 131-147). The Python
conditional expression `1.0 - (...) if rows > 2 else 0` spans the whole
right-hand side, and `max(1, rows // 2 - 1)` on naturals agrees with the
Python integer expression because both clamp everything at or below 1 up
to 1. Returns (target x, target z). -/
def zone_target (rows cols : ℕ) (z : ZoneId) : ℚ × ℚ :=
  match z with
  | ZoneId.left idx =>
    (-1, if 2 < rows then 1 - ((idx : ℚ) * 2 / ((max 1 (rows / 2 - 1) : ℕ) : ℚ)) else 0)
  | ZoneId.right idx =>
    (1, if 2 < rows then 1 - ((idx : ℚ) * 2 / ((max 1 (rows / 2 - 1) : ℕ) : ℚ)) else 0)
  | ZoneId.top idx =>
    (if 1 < cols then -1 + ((idx : ℚ) * 2 / ((max 1 (cols - 1) : ℕ) : ℚ)) else 0, 1)
  | ZoneId.bottom idx =>
    (if 1 < cols then -1 + ((idx : ℚ) * 2 / ((max 1 (cols - 1) : ℕ) : ℚ)) else 0, -1)

/-- Loop body of the closest-channel search (sync.py lines 153-159):
squared distance in the x-z plane, strict `<` comparison, so an equal
distance never replaces the current best; the `float('inf')` start is
modelled by the `none` accumulator, which the first channel always
replaces. -/
def find_best_step (target : ℚ × ℚ) (best : Option (ℕ × ℚ))
    (p : ℕ × (ℚ × ℚ × ℚ)) : Option (ℕ × ℚ) :=
  let d := (p.2.1 - target.1) ^ 2 + (p.2.2.2 - target.2) ^ 2
  match best with
  | none => some (p.1, d)
  | some (bid, bd) => if d < bd then some (p.1, d) else some (bid, bd)

/-- The closest-channel loop of _find_best_channel_for_zone
(sync.py lines 149-161). -/
def find_best_channel (target : ℚ × ℚ) (positions : List (ℕ × (ℚ × ℚ × ℚ))) :
    Option ℕ :=
  (positions.foldl (find_best_step target) none).map Prod.fst

/-- _find_best_channel_for_zone (sync.py lines 118-161) on well-formed edge
zone ids. -/
def find_best_channel_for_zone (rows cols : ℕ) (z : ZoneId)
    (positions : List (ℕ × (ℚ × ℚ × ℚ))) : Option ℕ :=
  find_best_channel (zone_target rows cols z) positions

/-- _build_zone_channel_mapping (sync.py lines 87-116): empty when no
channel positions exist, otherwise each zone of the ambilight list is bound
to its best channel when one is found. -/
def build_zone_channel_mapping (rows cols : ℕ)
    (positions : List (ℕ × (ℚ × ℚ × ℚ))) : List (ZoneId × ℕ) :=
  if positions = [] then []
  else
    (sync_zones rows cols).filterMap (fun z =>
      (find_best_channel_for_zone rows cols z positions).map (fun ch => (z, ch)))

/-- get_channel_positions (entertainment.py lines 478-492) in the situation
where no channel carries any position data: each coordinate falls back to
the `position.get(..., 0)` default, so every channel sits at (0, 0, 0). -/
def default_positions (channel_ids : List ℕ) : List (ℕ × (ℚ × ℚ × ℚ)) :=
  channel_ids.map (fun ch => (ch, (0, 0, 0)))

/-! Theorems. -/

/-- C2: every analyze_zone call raises TypeError - line 28 of colors.py
passes the keyword `light_info` to rgb_to_xy, whose only parameters r, g, b
are already bound by the three positional arguments - so the gamut
parameter is unusable and analyze_zones_batch fails on every non-empty
zone map, with or without light info. -/
theorem analyze_zone_always_type_error :
    (∀ gamma scale rgb li,
      analyze_zone gamma scale rgb li = Except.error PyErr.typeError) ∧
    (∀ gamma scale zcs lim, zcs ≠ ([] : List (ZoneId × (ℤ × ℤ × ℤ))) →
      analyze_zones_batch gamma scale zcs lim = Except.error PyErr.typeError) := by
  have hz : ∀ gamma scale rgb li,
      analyze_zone gamma scale rgb li = Except.error PyErr.typeError := by
    intro gamma scale rgb li
    simp [analyze_zone, rgb_to_xy_call, rgb_to_xy_params]
  refine ⟨hz, ?_⟩
  intro gamma scale zcs lim h
  match zcs with
  | [] => exact absurd rfl h
  | (z, rgb) :: rest =>
    simp [analyze_zones_batch, hz]

/-- Witness for C2 at a concrete input. -/
theorem analyze_zone_always_type_error_witness :
    analyze_zone 1 1 (10, 20, 30) none = Except.error PyErr.typeError ∧
    analyze_zones_batch 1 1 [(ZoneId.top 0, (10, 20, 30))] (fun _ => none) =
      Except.error PyErr.typeError :=
  ⟨analyze_zone_always_type_error.1 1 1 (10, 20, 30) none,
   analyze_zone_always_type_error.2 1 1 _ _ (by simp)⟩

/-- C4 counterexample: three zones share channel 0 with x components
0, 0, 1 and brightnesses 0, 0, 120; the code sends x = 1/2 and brightness
60, while the componentwise arithmetic means are 1/3 and 40. -/
theorem shared_channel_mean_counterexample :
    channel_colors_of (fun _ => some 0)
        [(ZoneId.top 0, ((0, 0), 0)), (ZoneId.top 1, ((0, 0), 0)),
         (ZoneId.top 2, ((1, 0), 120))]
      = [(0, ((1 / 2, 0), 60))] ∧
    ((0 : ℚ) + 0 + 1) / 3 ≠ (1 / 2 : ℚ) ∧ ((0 : ℤ) + 0 + 120) / 3 ≠ (60 : ℤ) := by
  refine ⟨?_, by norm_num, by decide⟩
  norm_num [channel_colors_of, update_channel_colors, alistFind?,
    combine_channel_color, Int.fdiv]

/-- C4 amended: zone colors that share a channel are folded pairwise in
zone iteration order - each step averages the accumulated value with the
incoming zone, exactly on x and y and with integer floor division on
brightness. For exactly two zones this is the componentwise arithmetic
mean (brightness up to floor); for three zones it is the nested pairwise
average, not the arithmetic mean. -/
theorem shared_channel_pairwise_average (z1 z2 z3 : ZoneId)
    (x1 y1 x2 y2 x3 y3 : ℚ) (b1 b2 b3 : ℤ) :
    channel_colors_of (fun _ => some 0)
        [(z1, ((x1, y1), b1)), (z2, ((x2, y2), b2))]
      = [(0, (((x1 + x2) / 2, (y1 + y2) / 2), Int.fdiv (b1 + b2) 2))] ∧
    channel_colors_of (fun _ => some 0)
        [(z1, ((x1, y1), b1)), (z2, ((x2, y2), b2)), (z3, ((x3, y3), b3))]
      = [(0, ((((x1 + x2) / 2 + x3) / 2, ((y1 + y2) / 2 + y3) / 2),
          Int.fdiv (Int.fdiv (b1 + b2) 2 + b3) 2))] := by
  constructor <;>
    simp [channel_colors_of, update_channel_colors, alistFind?, combine_channel_color]

/-- C8 amended: per axis, the crop is rejected exactly when the remaining
size falls below `int(size * 0.5)` - the rounded-down half, not exactly
50 percent - and the surviving bars are then clamped to `size // 2 - 1`
per side (stated for size ≥ 2, where that clamp is nonnegative). -/
theorem adjust_axis_min_content (size a b : ℕ) (h2 : 2 ≤ size) :
    ((size : ℤ) - a - b < ((size / 2 : ℕ) : ℤ) → adjust_axis size a b = (0, 0)) ∧
    (¬ ((size : ℤ) - a - b < ((size / 2 : ℕ) : ℤ)) →
      adjust_axis size a b
        = (min (a : ℤ) (((size / 2 : ℕ) : ℤ) - 1),
           min (b : ℤ) (((size / 2 : ℕ) : ℤ) - 1))) := by
  constructor
  · intro h
    have h1 : (0 : ℤ) ≤ ((size / 2 : ℕ) : ℤ) - 1 := by omega
    simp only [adjust_axis, if_pos h]
    rw [min_eq_left h1]
  · intro h
    simp only [adjust_axis, if_neg h]

/-- Witness for C8 amended: width 100 with bars 10 and 20 keeps the crop. -/
theorem adjust_axis_min_content_witness :
    2 ≤ 100 ∧ adjust_axis 100 10 20 = (10, 20) := by
  refine ⟨by norm_num, ?_⟩
  have h := (adjust_axis_min_content 100 10 20 (by norm_num)).2 (by decide)
  simpa using h

/-- Sequence counter closed form: after n successful XY sends the state is
connected with sequence n mod 256. -/
theorem state_after_closed_form (config_id : List ℕ) (channels : List ℕ)
    (colors : ℕ → ℕ → Option HueColor) (n : ℕ) :
    state_after config_id channels colors n = ⟨n % 256, true⟩ := by
  induction n with
  | zero => rfl
  | succ n ih =>
    simp only [state_after, ih, send_colors_xy]
    have : (n % 256 + 1) % 256 = (n + 1) % 256 := by omega
    simp [this]

/-- C10: the sequence counter starts at 0, advances by exactly one per
successful send in both XY and RGB modes, stays in 0..255, returns to 0
after 256 sent frames, and the n-th outgoing frame carries the counter
value n mod 256 it was built with. -/
theorem sequence_counter_spec (config_id : List ℕ) (channels : List ℕ)
    (colors : ℕ → ℕ → Option HueColor) :
    initial_stream_state.sequence = 0 ∧
    (∀ n, (state_after config_id channels colors n).sequence = n % 256) ∧
    (∀ n, (state_after config_id channels colors n).sequence < 256) ∧
    (state_after config_id channels colors 256).sequence = 0 ∧
    (∀ n, frame_at config_id channels colors n
      = some (build_xy_message (n % 256) config_id channels (colors n))) ∧
    (∀ st rgb ok, (send_colors config_id channels st rgb ok).1.sequence
      = if st.connected = true ∧ ok = true then (st.sequence + 1) % 256
        else st.sequence) := by
  refine ⟨rfl, ?_, ?_, ?_, ?_, ?_⟩
  · intro n; rw [state_after_closed_form]
  · intro n; rw [state_after_closed_form]; exact Nat.mod_lt _ (by norm_num)
  · rw [state_after_closed_form]
  · intro n
    simp [frame_at, state_after_closed_form, send_colors_xy]
  · intro st rgb ok
    rcases st with ⟨s, c⟩
    cases c <;> cases ok <;> simp [send_colors]

/-- Fold invariant for the closest-channel search: once the best candidate
sits at the common distance of all defaulted positions, the strict
comparison keeps it against every later channel. -/
theorem find_best_fold_const (ids : List ℕ) (target : ℚ × ℚ) (bid : ℕ) :
    List.foldl (find_best_step target)
      (some (bid, (0 - target.1) ^ 2 + (0 - target.2) ^ 2))
      (default_positions ids)
    = some (bid, (0 - target.1) ^ 2 + (0 - target.2) ^ 2) := by
  induction ids with
  | nil => rfl
  | cons i rest ih =>
    simpa [default_positions, find_best_step] using ih

/-- C9: when no channel position data exists at all - so every channel
position falls back to (0, 0, 0) - every zone of the ambilight list is
assigned the first available channel, and the resulting mapping is total
over the zone ids. -/
theorem zone_mapping_fallback_first_channel (rows cols : ℕ) (first : ℕ)
    (rest : List ℕ) :
    build_zone_channel_mapping rows cols (default_positions (first :: rest))
      = (sync_zones rows cols).map (fun z => (z, first)) ∧
    (build_zone_channel_mapping rows cols (default_positions (first :: rest))).map
        Prod.fst
      = sync_zones rows cols := by
  have hfind : ∀ z, find_best_channel_for_zone rows cols z
      (default_positions (first :: rest)) = some first := by
    intro z
    have hstep : find_best_step (zone_target rows cols z) none
        (first, ((0 : ℚ), (0 : ℚ), (0 : ℚ)))
        = some (first, (0 - (zone_target rows cols z).1) ^ 2
            + (0 - (zone_target rows cols z).2) ^ 2) := rfl
    simp only [find_best_channel_for_zone, find_best_channel, default_positions,
      List.map_cons, List.foldl_cons, hstep]
    rw [show (rest.map fun ch => (ch, ((0 : ℚ), (0 : ℚ), (0 : ℚ))))
      = default_positions rest from rfl]
    rw [find_best_fold_const rest (zone_target rows cols z) first]
    rfl
  have hfun : (fun z => (find_best_channel_for_zone rows cols z
        (default_positions (first :: rest))).map (fun ch => (z, ch)))
      = fun z : ZoneId => some (z, first) := by
    funext z
    rw [hfind]
    rfl
  have hlist : ∀ l : List ZoneId,
      l.filterMap (fun z : ZoneId => some (z, first))
      = l.map (fun z => (z, first)) := by
    intro l
    induction l with
    | nil => rfl
    | cons a t ih => simp [List.filterMap_cons, ih]
  have hmain : build_zone_channel_mapping rows cols
      (default_positions (first :: rest))
      = (sync_zones rows cols).map (fun z => (z, first)) := by
    rw [build_zone_channel_mapping, if_neg (by simp [default_positions])]
    rw [hfun]
    exact hlist (sync_zones rows cols)
  refine ⟨hmain, ?_⟩
  rw [hmain, List.map_map]
  exact List.map_id' (sync_zones rows cols)

/-- Uniform black test frame, 10 by 10. -/
def c3_img : Img := ⟨10, 10, fun _ _ => (0, 0, 0)⟩

/-- C3 counterexample: with edge_rows = 2 and edge_cols = 1, the ambilight
processor emits 4 zone keys (top_0, bottom_0, left_0, right_0), not
2C + 2R = 6; the key left_1 promised by the claim is absent, and the
declared zone count is also 4. -/
theorem ambilight_zone_count_counterexample :
    ((process_ambilight 2 1 c3_img).map Prod.fst).length = 4 ∧
    get_zone_count 2 1 = 4 ∧ (2 * 1 + 2 * 2 : ℕ) ≠ 4 ∧
    alistFind? (process_ambilight 2 1 c3_img) (ZoneId.left 1) = none := by
  exact ⟨rfl, rfl, by decide, rfl⟩

/-- The zone keys emitted by the ambilight processor are exactly
get_zone_ids, for any frame. -/
theorem process_ambilight_keys (rows cols : ℕ) (img : Img) :
    (process_ambilight rows cols img).map Prod.fst = get_zone_ids rows cols := by
  simp only [process_ambilight, get_zone_ids, List.map_append, List.map_map]
  rfl

/-- The ambilight zone id list has no duplicate keys. -/
theorem get_zone_ids_nodup (rows cols : ℕ) : (get_zone_ids rows cols).Nodup := by
  have htop : Function.Injective ZoneId.top := fun a b h => by
    cases h; rfl
  have hbot : Function.Injective ZoneId.bottom := fun a b h => by
    cases h; rfl
  have hleft : Function.Injective ZoneId.left := fun a b h => by
    cases h; rfl
  have hright : Function.Injective ZoneId.right := fun a b h => by
    cases h; rfl
  have hdisj : ∀ (f g : ℕ → ZoneId) (n m : ℕ), (∀ i j, f i ≠ g j) →
      (List.map f (List.range n)).Disjoint (List.map g (List.range m)) := by
    intro f g n m hfg x hx hy
    simp only [List.mem_map, List.mem_range] at hx hy
    obtain ⟨i, _, rfl⟩ := hx
    obtain ⟨j, _, hj⟩ := hy
    exact hfg i j hj.symm
  have hAB : ((List.range cols).map ZoneId.top
      ++ (List.range cols).map ZoneId.bottom).Nodup :=
    List.Nodup.append ((List.nodup_range cols).map htop)
      ((List.nodup_range cols).map hbot)
      (hdisj _ _ _ _ (fun i j h => by cases h))
  have hABC : (((List.range cols).map ZoneId.top
      ++ (List.range cols).map ZoneId.bottom)
      ++ (List.range (max 1 (rows / 2))).map ZoneId.left).Nodup := by
    refine List.Nodup.append hAB ((List.nodup_range _).map hleft) ?_
    intro x hx hy
    rw [List.mem_append] at hx
    rcases hx with h | h
    · exact hdisj ZoneId.top ZoneId.left cols (max 1 (rows / 2))
        (fun i j hij => by cases hij) h hy
    · exact hdisj ZoneId.bottom ZoneId.left cols (max 1 (rows / 2))
        (fun i j hij => by cases hij) h hy
  rw [get_zone_ids]
  refine List.Nodup.append hABC ((List.nodup_range _).map hright) ?_
  intro x hx hy
  rw [List.mem_append] at hx
  rcases hx with hx | h
  · rw [List.mem_append] at hx
    rcases hx with h | h
    · exact hdisj ZoneId.top ZoneId.right cols (max 1 (rows / 2))
        (fun i j hij => by cases hij) h hy
    · exact hdisj ZoneId.bottom ZoneId.right cols (max 1 (rows / 2))
        (fun i j hij => by cases hij) h hy
  · exact hdisj ZoneId.left ZoneId.right (max 1 (rows / 2)) (max 1 (rows / 2))
      (fun i j hij => by cases hij) h hy

/-- C3 amended: for every frame (cols ≥ 1, as cols = 0 zero-divides in
the source), the ambilight processor yields exactly cols top keys, cols
bottom keys and max(1, rows // 2) left and right keys each - a total of
2*cols + 2*max(1, rows // 2), matching get_zone_ids and get_zone_count -
with every key present regardless of the frame contents. -/
theorem ambilight_zone_count_amended (rows cols : ℕ) (img : Img)
    (hc : 1 ≤ cols) :
    (process_ambilight rows cols img).map Prod.fst = get_zone_ids rows cols ∧
    (process_ambilight rows cols img).length
      = 2 * cols + 2 * max 1 (rows / 2) ∧
    ((process_ambilight rows cols img).map Prod.fst).Nodup ∧
    get_zone_count rows cols = 2 * cols + 2 * max 1 (rows / 2) := by
  refine ⟨process_ambilight_keys rows cols img, ?_, ?_, ?_⟩
  · have h := congrArg List.length (process_ambilight_keys rows cols img)
    rw [List.length_map] at h
    rw [h]
    simp only [get_zone_ids, List.length_append, List.length_map,
      List.length_range]
    generalize max 1 (rows / 2) = L
    ring
  · rw [process_ambilight_keys]
    exact get_zone_ids_nodup rows cols
  · simp only [get_zone_count]
    generalize max 1 (rows / 2) = L
    ring

/-- Witness for C3 amended at the default 16 by 16 configuration. -/
theorem ambilight_zone_count_amended_witness :
    1 ≤ 16 ∧ (process_ambilight 16 16 c3_img).length
      = 2 * 16 + 2 * max 1 (16 / 2) :=
  ⟨by decide, (ambilight_zone_count_amended 16 16 c3_img (by decide)).2.1⟩

/-- The brightness sequence of the smoothing counterexample as rationals. -/
def c5_briQ : ℕ → ℚ := fun n => (c5_bri n : ℚ)

/-- The smoothing counterexample state never moves: the truncated
brightness step from 0 toward 1 with factor 1/2 yields int(1/2) = 0. -/
theorem c5_state_const (n : ℕ) : c5_state n = [(ZoneId.top 0, ((0, 0), 0))] := by
  induction n with
  | zero => rfl
  | succ n ih =>
    have hfloor : (⌊((0 : ℤ) : ℚ) + 1 / 2 * (((1 : ℤ) : ℚ) - ((0 : ℤ) : ℚ))⌋ : ℤ)
        = 0 := by
      rw [Int.floor_eq_iff]
      constructor <;> norm_num
    rw [c5_state, ih]
    simp only [apply_smoothing, c5_target, List.map_cons, List.map_nil,
      alistFind?, if_pos rfl, smooth_pair, pyInt]
    norm_num [hfloor]

/-- C5 counterexample: with factor 1/2 ∈ (0,1], a zone previously seen at
brightness 0 and smoothed repeatedly toward the constant target brightness
1 stays at 0 forever - the sequence does not converge to the target, and
the first step does not equal previous + factor*(current - previous) = 1/2. -/
theorem smoothing_convergence_counterexample :
    ¬ TendsToQ c5_briQ 1 ∧ c5_bri 1 = 0 ∧
    c5_briQ 1 ≠ (0 : ℚ) + 1 / 2 * (1 - 0) := by
  have hconst : ∀ n, c5_bri n = 0 := by
    intro n
    rw [c5_bri, c5_state_const]
    rfl
  have hq : ∀ n, c5_briQ n = 0 := by
    intro n
    rw [c5_briQ]
    rw [hconst n]
    norm_num
  refine ⟨?_, hconst 1, ?_⟩
  · intro h
    obtain ⟨N, hN⟩ := h (1 / 2) (by norm_num)
    have h2 := hN N le_rfl
    rw [hq N] at h2
    norm_num at h2
  · rw [hq 1]
    norm_num

/-- Closed form of the xy smoothing recurrence. -/
theorem xyIter_closed (factor t x0 : ℚ) (n : ℕ) :
    xyIter factor t x0 n = t - (1 - factor) ^ n * (t - x0) := by
  induction n with
  | zero => simp [xyIter]
  | succ n ih =>
    rw [xyIter, ih]
    ring

/-- The amended C5 statement, per smoothing factor: first-seen zones pass
through raw; a zone with a previous value is smoothed with the exponential
moving average on x and y and its int()-truncation on brightness; and the
x/y recurrence approaches a constant target monotonically, without
overshooting, and converges to it. -/
def smoothing_amended_prop (factor : ℚ) : Prop :=
  (∀ (previous : List (ZoneId × HueColor)) (z : ZoneId) (c : HueColor),
    alistFind? previous z = none →
    apply_smoothing factor previous [(z, c)] = [(z, c)]) ∧
  (∀ (previous : List (ZoneId × HueColor)) (z : ZoneId)
      (px py : ℚ) (pb : ℤ) (cx cy : ℚ) (cb : ℤ),
    alistFind? previous z = some ((px, py), pb) →
    apply_smoothing factor previous [(z, ((cx, cy), cb))]
      = [(z, ((px + factor * (cx - px), py + factor * (cy - py)),
          pyInt ((pb : ℚ) + factor * ((cb : ℚ) - (pb : ℚ)))))]) ∧
  (∀ t x0 : ℚ,
    (∀ n, |t - xyIter factor t x0 (n + 1)| ≤ |t - xyIter factor t x0 n|) ∧
    (∀ n, min x0 t ≤ xyIter factor t x0 n ∧ xyIter factor t x0 n ≤ max x0 t) ∧
    TendsToQ (xyIter factor t x0) t)

/-- C5 amended: proof of smoothing_amended_prop for every factor in (0,1]. -/
theorem smoothing_amended (factor : ℚ) (h0 : 0 < factor) (h1 : factor ≤ 1) :
    smoothing_amended_prop factor := by
  have hr0 : (0 : ℚ) ≤ 1 - factor := by linarith
  have hr1 : 1 - factor ≤ 1 := by linarith
  refine ⟨?_, ?_, ?_⟩
  · intro previous z c hfind
    simp [apply_smoothing, hfind]
  · intro previous z px py pb cx cy cb hfind
    simp [apply_smoothing, hfind, smooth_pair]
  · intro t x0
    have hclosed := xyIter_closed factor t x0
    have habs : ∀ n, |t - xyIter factor t x0 n|
        = (1 - factor) ^ n * |t - x0| := by
      intro n
      rw [hclosed n]
      rw [show t - (t - (1 - factor) ^ n * (t - x0))
        = (1 - factor) ^ n * (t - x0) by ring]
      rw [abs_mul, abs_pow, abs_of_nonneg hr0]
    refine ⟨?_, ?_, ?_⟩
    · intro n
      rw [habs n, habs (n + 1)]
      have hpow : (1 - factor) ^ (n + 1) ≤ (1 - factor) ^ n :=
        pow_le_pow_of_le_one hr0 hr1 (Nat.le_succ n)
      exact mul_le_mul_of_nonneg_right hpow (abs_nonneg _)
    · intro n
      have hp0 : (0 : ℚ) ≤ (1 - factor) ^ n := pow_nonneg hr0 n
      have hp1 : (1 - factor) ^ n ≤ 1 := pow_le_one₀ hr0 hr1
      rw [hclosed n]
      rcases le_total x0 t with hxt | hxt
      · rw [min_eq_left hxt, max_eq_right hxt]
        constructor <;> nlinarith
      · rw [min_eq_right hxt, max_eq_left hxt]
        constructor <;> nlinarith
    · intro ε hε
      by_cases hd : t - x0 = 0
      · refine ⟨0, fun n _ => ?_⟩
        rw [abs_sub_comm, habs n, hd]
        simpa using hε
      · have hdpos : 0 < |t - x0| := abs_pos.mpr hd
        obtain ⟨N, hN⟩ := exists_pow_lt_of_lt_one
          (div_pos hε hdpos) (show 1 - factor < 1 by linarith)
        refine ⟨N, fun n hn => ?_⟩
        rw [abs_sub_comm, habs n]
        calc (1 - factor) ^ n * |t - x0|
            ≤ (1 - factor) ^ N * |t - x0| :=
              mul_le_mul_of_nonneg_right
                (pow_le_pow_of_le_one hr0 hr1 hn) (abs_nonneg _)
          _ < ε := (lt_div_iff₀ hdpos).mp hN

/-- Witness for C5 amended at factor 1/2. -/
theorem smoothing_amended_witness : smoothing_amended_prop (1 / 2) :=
  smoothing_amended (1 / 2) (by norm_num) (by norm_num)

/-- Test frame for the black-bar counterexample: 2 rows by 5 columns,
black columns 0, 1 and 4, white content columns 2 and 3. -/
def c8_img : Img :=
  ⟨2, 5, fun _ j => if j = 2 ∨ j = 3 then (255, 255, 255) else (0, 0, 0)⟩

/-- C8 counterexample: the luminance scan detects bars left = 2 and
right = 1, and the remaining width 5 - 2 - 1 = 2 is below 50 percent of
the original width (2 < 2.5), so the claim demands left = right = 0 for
the horizontal axis; the code instead compares against int(5 * 0.5) = 2,
keeps the crop and clamps it, producing a crop region with left = 1. -/
theorem black_bar_min_content_counterexample :
    find_black_region 10 ((List.range c8_img.width).map (col_luminance c8_img))
      true = 2 ∧
    find_black_region 10 ((List.range c8_img.width).map (col_luminance c8_img))
      false = 1 ∧
    ((5 : ℚ) - 2 - 1) < 5 * (1 / 2) ∧
    detect_bars 10 c8_img = (1, 0, 4, 2) ∧ (1 : ℤ) ≠ 0 := by
  have hcols : (List.range c8_img.width).map (col_luminance c8_img)
      = [0, 0, 255, 255, 0] := by
    rw [show List.range c8_img.width = [0, 1, 2, 3, 4] from rfl]
    simp only [List.map_cons, List.map_nil]
    norm_num [col_luminance, c8_img, lum601, show List.range (2 : ℕ) = [0, 1] from rfl]
  have hrows : (List.range c8_img.height).map (row_luminance c8_img)
      = [102, 102] := by
    rw [show List.range c8_img.height = [0, 1] from rfl]
    simp only [List.map_cons, List.map_nil]
    norm_num [row_luminance, c8_img, lum601,
      show List.range (5 : ℕ) = [0, 1, 2, 3, 4] from rfl]
  have hfbL : find_black_region 10 [0, 0, 255, 255, 0] true = 2 := by
    norm_num [find_black_region, List.takeWhile_cons, decide_eq_true_eq]
  have hfbR : find_black_region 10 [0, 0, 255, 255, 0] false = 1 := by
    norm_num [find_black_region, List.takeWhile_cons, decide_eq_true_eq,
      List.reverse_cons]
  have hfbT : find_black_region 10 [102, 102] true = 0 := by
    norm_num [find_black_region, List.takeWhile_cons, decide_eq_true_eq]
  have hfbB : find_black_region 10 [102, 102] false = 0 := by
    norm_num [find_black_region, List.takeWhile_cons, decide_eq_true_eq,
      List.reverse_cons]
  refine ⟨by rw [hcols, hfbL], by rw [hcols, hfbR], by norm_num, ?_, by decide⟩
  simp only [detect_bars, hcols, hrows, hfbL, hfbR, hfbT, hfbB]
  rw [show c8_img.width = 5 from rfl, show c8_img.height = 2 from rfl]
  rw [show adjust_axis 5 2 1 = (1, 1) from by decide,
    show adjust_axis 2 0 0 = (0, 0) from by decide]
  decide

/-- Python round never goes below zero on nonnegative input. -/
theorem pyRound_nonneg (x : ℝ) (hx : 0 ≤ x) : 0 ≤ pyRound x := by
  rw [pyRound]
  split_ifs with h1 h2 h3
  · exact Int.floor_nonneg.mpr hx
  · exact Int.ceil_nonneg hx
  · exact Int.floor_nonneg.mpr hx
  · have := Int.floor_nonneg.mpr hx
    omega

/-- Python int() truncation agrees with the floor on nonnegative reals. -/
theorem pyIntR_eq_floor (x : ℝ) (hx : 0 ≤ x) : pyIntR x = ⌊x⌋ := if_pos hx

/-- Python round is the identity on integers. -/
theorem pyRound_intCast (n : ℤ) : pyRound ((n : ℝ)) = n := by
  rw [pyRound, Int.fract_intCast]
  rw [if_pos (by norm_num : (0 : ℝ) < 1 / 2)]
  exact Int.floor_intCast n

/-- Every channel of a gamma-corrected color is nonnegative. -/
theorem apply_gamma_nonneg (gamma : ℝ) (rgb : ℤ × ℤ × ℤ) :
    0 ≤ (apply_gamma gamma rgb).1 ∧ 0 ≤ (apply_gamma gamma rgb).2.1 ∧
      0 ≤ (apply_gamma gamma rgb).2.2 := by
  have h : ∀ c : ℤ, 0 ≤ pyRound (max 0 (min 1 ((c : ℝ) / 255))
      ^ (if 0 < gamma then gamma else 1) * 255) := by
    intro c
    apply pyRound_nonneg
    have hb : (0 : ℝ) ≤ max 0 (min 1 ((c : ℝ) / 255)) := le_max_left 0 _
    have := Real.rpow_nonneg hb (if 0 < gamma then gamma else 1)
    nlinarith
  exact ⟨h rgb.1, h rgb.2.1, h rgb.2.2⟩

/-- The luminance of a componentwise-nonnegative color is nonnegative. -/
theorem luminance709_nonneg (rgb : ℤ × ℤ × ℤ) (h1 : 0 ≤ rgb.1)
    (h2 : 0 ≤ rgb.2.1) (h3 : 0 ≤ rgb.2.2) : 0 ≤ luminance709 rgb := by
  rw [luminance709]
  have c1 : (0 : ℝ) ≤ (rgb.1 : ℝ) := Int.cast_nonneg.mpr h1
  have c2 : (0 : ℝ) ≤ (rgb.2.1 : ℝ) := Int.cast_nonneg.mpr h2
  have c3 : (0 : ℝ) ≤ (rgb.2.2 : ℝ) := Int.cast_nonneg.mpr h3
  nlinarith

/-- C7 amended: for a nonnegative brightness scale, the analyzer brightness
is clamp(1, 254, int(254 * luminance/255 * scale)) with int() truncating -
the floor of the nonnegative product, not round - where the luminance is
taken on the gamma-corrected RGB; and the result always lies in [1, 254]. -/
theorem analyzer_brightness_amended (gamma scale : ℝ) (rgb : ℤ × ℤ × ℤ)
    (hs : 0 ≤ scale) :
    analyzer_brightness gamma scale rgb
      = max 1 (min 254 ⌊luminance709 (apply_gamma gamma rgb) / 255 * 254 * scale⌋) ∧
    1 ≤ analyzer_brightness gamma scale rgb ∧
    analyzer_brightness gamma scale rgb ≤ 254 := by
  obtain ⟨g1, g2, g3⟩ := apply_gamma_nonneg gamma rgb
  have hlum : 0 ≤ luminance709 (apply_gamma gamma rgb) :=
    luminance709_nonneg _ g1 g2 g3
  have harg : 0 ≤ luminance709 (apply_gamma gamma rgb) / 255 * 254 * scale := by
    have := div_nonneg hlum (by norm_num : (0 : ℝ) ≤ 255)
    nlinarith
  refine ⟨?_, ?_, ?_⟩
  · simp only [analyzer_brightness, calculate_brightness]
    rw [pyIntR_eq_floor _ harg]
  · simp only [analyzer_brightness, calculate_brightness]
    exact le_max_left 1 _
  · simp only [analyzer_brightness, calculate_brightness]
    exact max_le (by norm_num) (min_le_left _ _)

/-- Witness for C7 amended: gamma 1, scale 1, mid gray. -/
theorem analyzer_brightness_amended_witness :
    (0 : ℝ) ≤ 1 ∧
    (analyzer_brightness 1 1 (100, 100, 100)
        = max 1 (min 254
            ⌊luminance709 (apply_gamma 1 (100, 100, 100)) / 255 * 254 * 1⌋) ∧
      1 ≤ analyzer_brightness 1 1 (100, 100, 100) ∧
      analyzer_brightness 1 1 (100, 100, 100) ≤ 254) :=
  ⟨by norm_num, analyzer_brightness_amended 1 1 (100, 100, 100) (by norm_num)⟩

/-- C7 counterexample: at RGB (100, 100, 100) with gamma 1 and scale 1 the
luminance of the (identity) gamma-corrected color is exactly 100, the code
truncates 100/255*254 = 99.6... down to 99, while the round in the claim
gives 100. -/
theorem analyzer_brightness_round_counterexample :
    analyzer_brightness 1 1 (100, 100, 100) = 99 ∧
    spec_brightness 1 1 (100, 100, 100) = 100 ∧ (99 : ℤ) ≠ 100 := by
  have key : pyRound (max 0 (min 1 (((100 : ℤ) : ℝ) / 255))
      ^ (if (0 : ℝ) < 1 then (1 : ℝ) else 1) * 255) = 100 := by
    rw [if_pos (by norm_num : (0 : ℝ) < 1), Real.rpow_one]
    rw [show max 0 (min 1 (((100 : ℤ) : ℝ) / 255)) = 100 / 255 by
      rw [min_eq_right (by norm_num), max_eq_right (by norm_num)]
      norm_num]
    rw [show (100 / 255 : ℝ) * 255 = ((100 : ℤ) : ℝ) by norm_num]
    exact pyRound_intCast 100
  have hgamma : apply_gamma 1 (100, 100, 100) = (100, 100, 100) := by
    simp only [apply_gamma]
    simp only [key]
  have hlum : luminance709 (100, 100, 100) = 100 := by
    rw [luminance709]
    norm_num
  refine ⟨?_, ?_, by decide⟩
  · rw [analyzer_brightness, hgamma]
    simp only [calculate_brightness]
    rw [hlum]
    rw [pyIntR_eq_floor _ (by norm_num)]
    rw [show ⌊(100 : ℝ) / 255 * 254 * 1⌋ = (99 : ℤ) by
      rw [Int.floor_eq_iff]
      constructor <;> norm_num]
    decide
  · simp only [spec_brightness]
    rw [hgamma, hlum]
    rw [show round (254 * ((100 : ℝ) / 255) * 1) = (100 : ℤ) by
      rw [round_eq, Int.floor_eq_iff]
      constructor <;> norm_num]
    decide

/-- color_to_bytes with the truncation spelled as a floor: the clamped
value times 65535 is nonnegative. -/
theorem color_to_bytes_eq (v : ℚ) :
    color_to_bytes v = [(⌊max 0 (min 1 v) * 65535⌋).toNat / 256 % 256,
      (⌊max 0 (min 1 v) * 65535⌋).toNat % 256] := by
  have h : (0 : ℚ) ≤ max 0 (min 1 v) * 65535 :=
    mul_nonneg (le_max_left 0 _) (by norm_num)
  simp only [color_to_bytes, pyInt, if_pos h]

/-- brightness_to_bytes with the toNat pushed inside the product. -/
theorem brightness_to_bytes_eq (b : ℤ) :
    brightness_to_bytes b = [(max 0 (min 254 b)).toNat * 257 / 256 % 256,
      (max 0 (min 254 b)).toNat * 257 % 256] := by
  have h : (max 0 (min 254 b) * 257).toNat = (max 0 (min 254 b)).toNat * 257 := by
    have h0 : 0 ≤ max 0 (min 254 b) := le_max_left 0 _
    omega
  simp only [brightness_to_bytes, h]

/-- A zero color value encodes as two zero bytes. -/
theorem color_to_bytes_zero : color_to_bytes 0 = [0, 0] := by
  rw [color_to_bytes_eq]
  rw [show max 0 (min 1 (0 : ℚ)) = 0 by
    rw [min_eq_right (by norm_num : (0 : ℚ) ≤ 1), max_self]]
  norm_num

/-- A zero brightness encodes as two zero bytes. -/
theorem brightness_to_bytes_zero : brightness_to_bytes 0 = [0, 0] := by
  rw [brightness_to_bytes_eq]
  decide

/-- Every per-channel record of the XY data section is 7 bytes long. -/
theorem xy_record_length (colors : ℕ → Option HueColor) (ch : ℕ) :
    (ch :: (color_to_bytes (extract_xy_brightness colors ch).1.1
      ++ color_to_bytes (extract_xy_brightness colors ch).1.2
      ++ brightness_to_bytes (extract_xy_brightness colors ch).2)).length = 7 := by
  rw [color_to_bytes_eq, color_to_bytes_eq, brightness_to_bytes_eq]
  rfl

/-- The XY data section is 7 bytes per channel. -/
theorem xy_data_length (channels : List ℕ) (colors : ℕ → Option HueColor) :
    (build_xy_channel_data channels colors).length = 7 * channels.length := by
  rw [build_xy_channel_data]
  rw [show channels.length = (List.insertionSort (· ≤ ·) channels).length from
    ((List.perm_insertionSort (· ≤ ·) channels).length_eq).symm]
  generalize List.insertionSort (· ≤ ·) channels = l
  induction l with
  | nil => rfl
  | cons ch t ih =>
    rw [List.flatMap_cons, List.length_append, ih, xy_record_length]
    rw [List.length_cons]
    omega

/-- C1: the XY-mode wire frame built by the stream is byte-exact against
the spec layout - 52-byte header (for a 36-byte ASCII UUID) followed by
one 7-byte record per known channel in ascending channel-id order, zero
color payload for channels without a pending color - and its total length
is 52 + 7N bytes, 73 bytes for three channels. -/
theorem xy_frame_spec_exact (seq : ℕ) (config_id : List ℕ) (channels : List ℕ)
    (colors : ℕ → Option HueColor) (hlen : config_id.length = 36) :
    build_xy_message seq config_id channels colors
      = spec_xy_frame seq config_id channels colors ∧
    (build_xy_message seq config_id channels colors).length
      = 52 + 7 * channels.length ∧
    List.Sorted (· ≤ ·) (List.insertionSort (· ≤ ·) channels) ∧
    (List.insertionSort (· ≤ ·) channels).Perm channels ∧
    52 + 7 * 3 = 73 := by
  refine ⟨?_, ?_, List.sorted_insertionSort _ channels,
    List.perm_insertionSort _ channels, by norm_num⟩
  · simp only [build_xy_message, build_message_header, HEADER_BYTES,
      build_xy_channel_data, spec_xy_frame]
    congr 1
    apply List.flatMap_congr
    intro ch _
    cases hc : colors ch with
    | none =>
      simp only [extract_xy_brightness, hc, Option.getD_none]
      rw [color_to_bytes_zero, brightness_to_bytes_zero]
      rfl
    | some c =>
      obtain ⟨⟨x, y⟩, bri⟩ := c
      simp only [extract_xy_brightness, hc, Option.getD_some]
      rw [color_to_bytes_eq, color_to_bytes_eq, brightness_to_bytes_eq]
  · rw [build_xy_message, List.length_append, xy_data_length]
    rw [build_message_header, HEADER_BYTES]
    simp [hlen]

/-- Witness for C1: three channels, no pending colors, a 36-byte id. -/
theorem xy_frame_spec_exact_witness :
    (List.replicate 36 48).length = 36 ∧
    (build_xy_message 0 (List.replicate 36 48) [0, 1, 2]
      (fun _ => none)).length = 52 + 7 * ([0, 1, 2] : List ℕ).length :=
  ⟨by decide,
    (xy_frame_spec_exact 0 (List.replicate 36 48) [0, 1, 2] (fun _ => none)
      (by decide)).2.1⟩

/-- The sign test accepts a point whose three edge signs are nonnegative
multiples of one common value: they can never be strictly positive and
strictly negative at once. -/
theorem pit_of_signs (px py : ℚ) (p1 p2 p3 : Pt) (S a1 a2 a3 : ℚ)
    (ha1 : 0 ≤ a1) (ha2 : 0 ≤ a2) (ha3 : 0 ≤ a3)
    (e1 : sign (px, py) p1 p2 = a1 * S)
    (e2 : sign (px, py) p2 p3 = a2 * S)
    (e3 : sign (px, py) p3 p1 = a3 * S) :
    point_in_triangle px py p1 p2 p3 = true := by
  simp only [point_in_triangle, e1, e2, e3]
  rcases le_total 0 S with hS | hS
  · have h1 : ¬ (a1 * S < 0) := not_lt.mpr (mul_nonneg ha1 hS)
    have h2 : ¬ (a2 * S < 0) := not_lt.mpr (mul_nonneg ha2 hS)
    have h3 : ¬ (a3 * S < 0) := not_lt.mpr (mul_nonneg ha3 hS)
    simp [h1, h2, h3]
  · have h1 : ¬ (0 < a1 * S) := not_lt.mpr (by nlinarith)
    have h2 : ¬ (0 < a2 * S) := not_lt.mpr (by nlinarith)
    have h3 : ¬ (0 < a3 * S) := not_lt.mpr (by nlinarith)
    simp [h1, h2, h3]

/-- A point of the segment from u to v lies in the triangle (u, v, w). -/
theorem seg_mem_triangle_A (u v w : Pt) (t : ℚ) (h0 : 0 ≤ t) (h1 : t ≤ 1) :
    point_in_triangle (u.1 + (v.1 - u.1) * t) (u.2 + (v.2 - u.2) * t)
      u v w = true := by
  refine pit_of_signs _ _ u v w (sign u v w) 0 (1 - t) t le_rfl
    (by linarith) h0 ?_ ?_ ?_ <;>
    · simp only [sign]
      ring

/-- A point of the segment from u to v lies in the triangle (w, u, v). -/
theorem seg_mem_triangle_B (u v w : Pt) (t : ℚ) (h0 : 0 ≤ t) (h1 : t ≤ 1) :
    point_in_triangle (u.1 + (v.1 - u.1) * t) (u.2 + (v.2 - u.2) * t)
      w u v = true := by
  refine pit_of_signs _ _ w u v (sign u v w) t 0 (1 - t) h0 le_rfl
    (by linarith) ?_ ?_ ?_ <;>
    · simp only [sign]
      ring

/-- A point of the segment from u to v lies in the triangle (v, w, u). -/
theorem seg_mem_triangle_C (u v w : Pt) (t : ℚ) (h0 : 0 ≤ t) (h1 : t ≤ 1) :
    point_in_triangle (u.1 + (v.1 - u.1) * t) (u.2 + (v.2 - u.2) * t)
      v w u = true := by
  refine pit_of_signs _ _ v w u (sign u v w) (1 - t) t 0 (by linarith) h0
    le_rfl ?_ ?_ ?_ <;>
    · simp only [sign]
      ring

/-- The clamped projection lies on the segment: it is the affine point of
some parameter t in [0, 1]. -/
theorem closest_point_param (a b p : Pt) :
    ∃ t : ℚ, 0 ≤ t ∧ t ≤ 1 ∧
      closest_point_on_line a b p
        = (a.1 + (b.1 - a.1) * t, a.2 + (b.2 - a.2) * t) := by
  refine ⟨max 0 (min 1 (if (b.1 - a.1) * (b.1 - a.1) + (b.2 - a.2) * (b.2 - a.2) ≠ 0
      then ((p.1 - a.1) * (b.1 - a.1) + (p.2 - a.2) * (b.2 - a.2))
        / ((b.1 - a.1) * (b.1 - a.1) + (b.2 - a.2) * (b.2 - a.2))
      else 0)), le_max_left 0 _, max_le (by norm_num) (min_le_left _ _), rfl⟩

set_option maxHeartbeats 1000000 in
/-- The clamped projection minimizes the squared distance over the whole
segment. -/
theorem closest_point_minimizes (a b p : Pt) (s : ℚ) (h0 : 0 ≤ s) (h1 : s ≤ 1) :
    distanceSq p (closest_point_on_line a b p)
      ≤ distanceSq p (a.1 + (b.1 - a.1) * s, a.2 + (b.2 - a.2) * s) := by
  obtain ⟨ax, ay⟩ := a
  obtain ⟨bx, b2⟩ := b
  obtain ⟨px, py⟩ := p
  simp only [closest_point_on_line, distanceSq]
  by_cases hA : (bx - ax) * (bx - ax) + (b2 - ay) * (b2 - ay) = 0
  · have hdx0 : bx - ax = 0 := by nlinarith [sq_nonneg (bx - ax), sq_nonneg (b2 - ay)]
    have hdy0 : b2 - ay = 0 := by nlinarith [sq_nonneg (bx - ax), sq_nonneg (b2 - ay)]
    simp [hdx0, hdy0]
  · have hApos : 0 < (bx - ax) * (bx - ax) + (b2 - ay) * (b2 - ay) :=
      lt_of_le_of_ne
        (add_nonneg (mul_self_nonneg (bx - ax)) (mul_self_nonneg (b2 - ay)))
        (Ne.symm hA)
    rw [if_pos hA]
    set A := (bx - ax) * (bx - ax) + (b2 - ay) * (b2 - ay) with hAdef
    set u := (px - ax) * (bx - ax) + (py - ay) * (b2 - ay) with hudef
    rcases le_or_lt (u / A) 0 with hc | hc
    · have ht : max 0 (min 1 (u / A)) = 0 := by
        rw [min_eq_right (hc.trans (by norm_num)), max_eq_left hc]
      rw [ht]
      have hu : u ≤ 0 := by
        have hrw : u / A * A = u := div_mul_cancel₀ u hA
        nlinarith [mul_nonneg (neg_nonneg.mpr hc) hApos.le]
      have key : (px - (ax + (bx - ax) * s)) ^ 2 + (py - (ay + (b2 - ay) * s)) ^ 2
          - ((px - (ax + (bx - ax) * 0)) ^ 2 + (py - (ay + (b2 - ay) * 0)) ^ 2)
          = s * (A * s - 2 * u) := by
        rw [hAdef, hudef]
        ring
      have hbr : 0 ≤ A * s - 2 * u := by nlinarith [mul_nonneg hApos.le h0]
      nlinarith [mul_nonneg h0 hbr]
    · rcases le_or_lt 1 (u / A) with hc2 | hc2
      · have ht : max 0 (min 1 (u / A)) = 1 := by
          rw [min_eq_left hc2, max_eq_right (by norm_num : (0 : ℚ) ≤ 1)]
        rw [ht]
        have hu : A ≤ u := (one_le_div hApos).mp hc2
        have key : (px - (ax + (bx - ax) * s)) ^ 2 + (py - (ay + (b2 - ay) * s)) ^ 2
            - ((px - (ax + (bx - ax) * 1)) ^ 2 + (py - (ay + (b2 - ay) * 1)) ^ 2)
            = (1 - s) * (2 * u - A * (1 + s)) := by
          rw [hAdef, hudef]
          ring
        have hbr : 0 ≤ 2 * u - A * (1 + s) := by nlinarith
        nlinarith [mul_nonneg (sub_nonneg.mpr h1) hbr]
      · have ht : max 0 (min 1 (u / A)) = u / A := by
          rw [min_eq_right hc2.le, max_eq_right hc.le]
        rw [ht]
        have hT : A * (u / A) = u := by
          rw [mul_comm]
          exact div_mul_cancel₀ u hA
        have key : A * ((px - (ax + (bx - ax) * s)) ^ 2
              + (py - (ay + (b2 - ay) * s)) ^ 2)
            - A * ((px - (ax + (bx - ax) * (u / A))) ^ 2
              + (py - (ay + (b2 - ay) * (u / A))) ^ 2)
            = (A * s - u) ^ 2 := by
          rw [hudef, hAdef] at hT ⊢
          generalize hTdef : ((px - ax) * (bx - ax) + (py - ay) * (b2 - ay))
            / ((bx - ax) * (bx - ax) + (b2 - ay) * (b2 - ay)) = T at hT ⊢
          linear_combination (((px - ax) * (bx - ax) + (py - ay) * (b2 - ay))
            - ((bx - ax) * (bx - ax) + (b2 - ay) * (b2 - ay)) * T) * hT
        nlinarith [sq_nonneg (A * s - u), hApos]

/-- The two-step comparison chain of constrain_to_gamut picks a value at
or below each of the three candidates. -/
theorem chain_min (d1 d2 d3 : ℚ) :
    (if d1 ≤ d2 ∧ d1 ≤ d3 then d1 else if d2 ≤ d1 ∧ d2 ≤ d3 then d2 else d3) ≤ d1 ∧
    (if d1 ≤ d2 ∧ d1 ≤ d3 then d1 else if d2 ≤ d1 ∧ d2 ≤ d3 then d2 else d3) ≤ d2 ∧
    (if d1 ≤ d2 ∧ d1 ≤ d3 then d1 else if d2 ≤ d1 ∧ d2 ≤ d3 then d2 else d3) ≤ d3 := by
  split_ifs with h1 h2
  · exact ⟨le_refl _, h1.1, h1.2⟩
  · exact ⟨h2.1, le_refl _, h2.2⟩
  · push_neg at h1 h2
    rcases le_total d1 d2 with h | h
    · have h3 := h1 h
      exact ⟨by linarith, by linarith, le_refl _⟩
    · have h3 := h2 h
      exact ⟨by linarith, by linarith, le_refl _⟩

/-- C6: constrain_to_gamut leaves inside points unchanged, is idempotent,
and sends an outside point to one of the three clamped edge projections -
the one at minimum (squared, equivalently Euclidean) distance - while each
projection itself is the closest point of its segment. -/
theorem constrain_to_gamut_spec (g : Gamut) (x y : ℚ) :
    (point_in_triangle x y g.red g.green g.blue = true →
      constrain_to_gamut x y g = (x, y)) ∧
    constrain_to_gamut (constrain_to_gamut x y g).1 (constrain_to_gamut x y g).2 g
      = constrain_to_gamut x y g ∧
    (point_in_triangle x y g.red g.green g.blue = false →
      ((constrain_to_gamut x y g = closest_point_on_line g.red g.green (x, y) ∨
        constrain_to_gamut x y g = closest_point_on_line g.green g.blue (x, y) ∨
        constrain_to_gamut x y g = closest_point_on_line g.blue g.red (x, y)) ∧
       distanceSq (x, y) (constrain_to_gamut x y g)
         ≤ distanceSq (x, y) (closest_point_on_line g.red g.green (x, y)) ∧
       distanceSq (x, y) (constrain_to_gamut x y g)
         ≤ distanceSq (x, y) (closest_point_on_line g.green g.blue (x, y)) ∧
       distanceSq (x, y) (constrain_to_gamut x y g)
         ≤ distanceSq (x, y) (closest_point_on_line g.blue g.red (x, y)))) ∧
    (∀ a b : Pt, ∀ s : ℚ, 0 ≤ s → s ≤ 1 →
      distanceSq (x, y) (closest_point_on_line a b (x, y))
        ≤ distanceSq (x, y) (a.1 + (b.1 - a.1) * s, a.2 + (b.2 - a.2) * s)) := by
  have hfix : ∀ px py, point_in_triangle px py g.red g.green g.blue = true →
      constrain_to_gamut px py g = (px, py) := by
    intro px py hq
    simp only [constrain_to_gamut]
    rw [if_pos hq]
  have hproj_in : ∀ q : Pt,
      (q = closest_point_on_line g.red g.green (x, y) ∨
       q = closest_point_on_line g.green g.blue (x, y) ∨
       q = closest_point_on_line g.blue g.red (x, y)) →
      point_in_triangle q.1 q.2 g.red g.green g.blue = true := by
    intro q hq
    rcases hq with hq | hq | hq
    · obtain ⟨t, ht0, ht1, heq⟩ := closest_point_param g.red g.green (x, y)
      rw [hq, heq]
      exact seg_mem_triangle_A g.red g.green g.blue t ht0 ht1
    · obtain ⟨t, ht0, ht1, heq⟩ := closest_point_param g.green g.blue (x, y)
      rw [hq, heq]
      exact seg_mem_triangle_B g.green g.blue g.red t ht0 ht1
    · obtain ⟨t, ht0, ht1, heq⟩ := closest_point_param g.blue g.red (x, y)
      rw [hq, heq]
      exact seg_mem_triangle_C g.blue g.red g.green t ht0 ht1
  have hout : point_in_triangle x y g.red g.green g.blue = false →
      (constrain_to_gamut x y g = closest_point_on_line g.red g.green (x, y) ∨
       constrain_to_gamut x y g = closest_point_on_line g.green g.blue (x, y) ∨
       constrain_to_gamut x y g = closest_point_on_line g.blue g.red (x, y)) := by
    intro hpit
    simp only [constrain_to_gamut]
    rw [if_neg (by simp [hpit])]
    split_ifs with h1 h2
    · exact Or.inl rfl
    · exact Or.inr (Or.inl rfl)
    · exact Or.inr (Or.inr rfl)
  refine ⟨fun h => hfix x y h, ?_, ?_, fun a b s hs0 hs1 =>
    closest_point_minimizes a b (x, y) s hs0 hs1⟩
  · cases hpit : point_in_triangle x y g.red g.green g.blue with
    | true =>
      rw [hfix x y hpit]
      exact hfix x y hpit
    | false =>
      have hin := hproj_in (constrain_to_gamut x y g) (hout hpit)
      calc constrain_to_gamut (constrain_to_gamut x y g).1
            (constrain_to_gamut x y g).2 g
          = ((constrain_to_gamut x y g).1, (constrain_to_gamut x y g).2) :=
            hfix _ _ hin
        _ = constrain_to_gamut x y g := Prod.mk.eta
  · intro hpit
    refine ⟨hout hpit, ?_⟩
    simp only [constrain_to_gamut]
    rw [if_neg (by simp [hpit])]
    rw [apply_ite (distanceSq (x, y)), apply_ite (distanceSq (x, y))]
    exact chain_min _ _ _

/-- Witness for C6: idempotence and the minimizing-projection bound at a
concrete point against GAMUT_C. -/
theorem constrain_to_gamut_spec_witness :
    constrain_to_gamut (constrain_to_gamut (9 / 10) (9 / 10) GAMUT_C).1
        (constrain_to_gamut (9 / 10) (9 / 10) GAMUT_C).2 GAMUT_C
      = constrain_to_gamut (9 / 10) (9 / 10) GAMUT_C ∧
    (0 : ℚ) ≤ 1 / 2 ∧ (1 / 2 : ℚ) ≤ 1 ∧
    distanceSq (9 / 10, 9 / 10)
        (closest_point_on_line GAMUT_C.red GAMUT_C.green (9 / 10, 9 / 10))
      ≤ distanceSq (9 / 10, 9 / 10)
        (GAMUT_C.red.1 + (GAMUT_C.green.1 - GAMUT_C.red.1) * (1 / 2),
         GAMUT_C.red.2 + (GAMUT_C.green.2 - GAMUT_C.red.2) * (1 / 2)) :=
  ⟨(constrain_to_gamut_spec GAMUT_C (9 / 10) (9 / 10)).2.1,
   by norm_num, by norm_num,
   (constrain_to_gamut_spec GAMUT_C (9 / 10) (9 / 10)).2.2.2
     GAMUT_C.red GAMUT_C.green (1 / 2) (by norm_num) (by norm_num)⟩

end Lumux
